import Mathlib

/-!
Verification of `mpdecimate_trim.py`: a linear pipeline that
(1) runs ffmpeg with the mpdecimate filter capturing its debug log,
(2) parses the log into `(keep_start, keep_end)` intervals and an
    audio-presence flag,
(3) writes an ffconcat playlist and runs a second ffmpeg pass, then
(4) cleans up.

Conventions of the shallow embedding:
* A log file is a `List String` of its lines, each line given WITHOUT the
  terminating newline character.  The Python code iterates over lines that
  still carry the `"\n"`; since `re_decimate` ends in `$` and the audio
  regexes end in `\s*$` (and are used with `fullmatch`), a line matches
  with the trailing newline iff its newline-stripped form matches, so this
  convention preserves matchability exactly.
* `pts_time` values are kept as the captured strings, as in the Python
  code (which never converts them to numbers).
* `\d` / `\s` are modelled by their ASCII meaning (ffmpeg logs are ASCII;
  Python defaults to the Unicode classes, which coincide on ASCII text).
* OS-provided values (the temporary directory name from `mkdtemp`, the
  absolute path produced by `os.path.abspath`) are inputs of the model.
-/

namespace MpdecimateTrim

/-! ### Character classes -/

/-- ASCII decimal digit, the `\d` class on ASCII text. -/
def isDig (c : Char) : Bool := '0' ≤ c && c ≤ '9'

/-- ASCII whitespace, the `\s` class on ASCII text:
space, tab, newline, carriage return, vertical tab, form feed. -/
def isSpace (c : Char) : Bool :=
  c = ' ' || c = '\t' || c = '\n' || c = '\x0d' || c = '\x0b' || c = '\x0c'

/-! ### Parsing primitives over `List Char`

Each primitive consumes a prefix of the input and returns the rest, or
`none` when the required shape is absent.  Maximal munch for `\d+` and
`\s*` agrees with Python's greedy semantics here because in every pattern
below the character following such a class cannot itself belong to the
class, so no backtracking into the class is ever needed. -/

/-- Consume the literal string `p` from the front of `cs`. -/
def lit : List Char → List Char → Option (List Char)
  | [], cs => some cs
  | _ :: _, [] => none
  | p :: ps, c :: cs => if c = p then lit ps cs else none

/-- Consume a maximal (possibly empty) run of digits, also returning it. -/
def digRun : List Char → List Char × List Char
  | [] => ([], [])
  | c :: cs =>
    if isDig c then
      let (r, rest) := digRun cs
      (c :: r, rest)
    else ([], c :: cs)

/-- Consume `\d+` (at least one digit), returning the digits consumed. -/
def digits1 (cs : List Char) : Option (List Char × List Char) :=
  match digRun cs with
  | ([], _) => none
  | (r, rest) => some (r, rest)

/-- Consume `\d+` discarding the digits. -/
def skipDigits1 (cs : List Char) : Option (List Char) :=
  (digits1 cs).map Prod.snd

/-- Consume `-?\d+`. -/
def skipIntLit : List Char → Option (List Char)
  | '-' :: cs => skipDigits1 cs
  | cs => skipDigits1 cs

/-- Consume a maximal (possibly empty) run of whitespace (`\s*`). -/
def skipWs : List Char → List Char
  | [] => []
  | c :: cs => if isSpace c then skipWs cs else c :: cs

/-! ### `re_decimate`

```
^.* (keep|drop) pts:\d+ pts_time:(\d+(?:\.\d+)?) drop_count:-?\d+(?: keep_count:-?\d+)?$
```

used as `re_decimate.findall(line)`, whose first (and, the pattern being
anchored, only) element is the pair of the two captured groups.  The
greedy `^.*` means the groups come from the latest position at which the
rest of the pattern can match through to the end of the line. -/

/-- Parse `(keep|drop)`, returning the tag. -/
def tagAlt : List Char → Option (String × List Char)
  | cs =>
    match lit ['k', 'e', 'e', 'p'] cs with
    | some rest => some ("keep", rest)
    | none =>
      match lit ['d', 'r', 'o', 'p'] cs with
      | some rest => some ("drop", rest)
      | none => none

/-- Parse `(\d+(?:\.\d+)?)`, the `pts_time` capture group. -/
def ptsNum (cs : List Char) : Option (String × List Char) := do
  let (d, rest) ← digits1 cs
  match rest with
  | '.' :: rest2 =>
    match digits1 rest2 with
    | some (f, rest3) => some (String.mk (d ++ '.' :: f), rest3)
    | none => none
  | _ => some (String.mk d, rest)

/-- Parse the part of `re_decimate` after the `^.*`:
` (keep|drop) pts:\d+ pts_time:(…) drop_count:-?\d+(?: keep_count:-?\d+)?$`,
requiring it to reach the end of the line.  Returns the two groups. -/
def decTail (cs : List Char) : Option (String × String) := do
  let cs ← lit [' '] cs
  let (tag, cs) ← tagAlt cs
  let cs ← lit [' ', 'p', 't', 's', ':'] cs
  let cs ← skipDigits1 cs
  let cs ← lit [' ', 'p', 't', 's', '_', 't', 'i', 'm', 'e', ':'] cs
  let (pts, cs) ← ptsNum cs
  let cs ← lit [' ', 'd', 'r', 'o', 'p', '_', 'c', 'o', 'u', 'n', 't', ':'] cs
  let cs ← skipIntLit cs
  match cs with
  | [] => some (tag, pts)
  | _ =>
    let cs ← lit [' ', 'k', 'e', 'e', 'p', '_', 'c', 'o', 'u', 'n', 't', ':'] cs
    let cs ← skipIntLit cs
    match cs with
    | [] => some (tag, pts)
    | _ => none

/-- Try `decTail` at every suffix, preferring the latest position (the
greedy `^.*` consumes as much as possible). -/
def decSearch : List Char → Option (String × String)
  | [] => none
  | c :: cs =>
    match decSearch cs with
    | some r => some r
    | none => decTail (c :: cs)

/-- `re_decimate.findall(line)[0]`, i.e. the `(keep|drop, pts_time)` group
pair, or `none` when the line does not match. -/
def re_decimate_find (line : String) : Option (String × String) :=
  decSearch line.toList

/-! ### `re_audio_in` and `re_audio_out`

```
^(?:\[.*\])?\s*Input stream #\d:\d \(audio\): \d+ packets read \(\d+ bytes\);
  \d+ frames decoded(?:; \d+ decode errors)? \(\d+ samples\);\s*$
^(?:\[.*\])?\s*Output stream #\d:\d \(audio\): \d+ frames encoded \(\d+ samples\);
  \d+ packets muxed \(\d+ bytes\);\s*$
```

used with `fullmatch`, so acceptance is what matters and the search over
possible `\]` positions can be exhaustive. -/

/-- Consume a single digit (`\d`). -/
def skipDig : List Char → Option (List Char)
  | [] => none
  | c :: cs => if isDig c then some cs else none

/-- Parse `#\d:\d \(audio\): ` after `Input stream` / `Output stream`. -/
def streamIdAudio (cs : List Char) : Option (List Char) := do
  let cs ← lit ['#'] cs
  let cs ← skipDig cs
  let cs ← lit [':'] cs
  let cs ← skipDig cs
  lit [' ', '(', 'a', 'u', 'd', 'i', 'o', ')', ':', ' '] cs

/-- Tail of `re_audio_in` after the optional `\[.*\]` prefix:
`\s*Input stream #\d:\d \(audio\): \d+ packets read \(\d+ bytes\); \d+
frames decoded(?:; \d+ decode errors)? \(\d+ samples\);\s*` to the end. -/
def audioInTail (cs : List Char) : Bool :=
  (do
    let cs := skipWs cs
    let cs ← lit "Input stream ".toList cs
    let cs ← streamIdAudio cs
    let cs ← skipDigits1 cs
    let cs ← lit " packets read (".toList cs
    let cs ← skipDigits1 cs
    let cs ← lit " bytes); ".toList cs
    let cs ← skipDigits1 cs
    let cs ← lit " frames decoded".toList cs
    let cs ←
      match cs with
      | ';' :: cs2 => do
        let cs2 ← lit [' '] cs2
        let cs2 ← skipDigits1 cs2
        lit " decode errors".toList cs2
      | _ => some cs
    let cs ← lit " (".toList cs
    let cs ← skipDigits1 cs
    let cs ← lit " samples);".toList cs
    match skipWs cs with
    | [] => some ()
    | _ => none) |>.isSome

/-- Tail of `re_audio_out` after the optional `\[.*\]` prefix. -/
def audioOutTail (cs : List Char) : Bool :=
  (do
    let cs := skipWs cs
    let cs ← lit "Output stream ".toList cs
    let cs ← streamIdAudio cs
    let cs ← skipDigits1 cs
    let cs ← lit " frames encoded (".toList cs
    let cs ← skipDigits1 cs
    let cs ← lit " samples); ".toList cs
    let cs ← skipDigits1 cs
    let cs ← lit " packets muxed (".toList cs
    let cs ← skipDigits1 cs
    let cs ← lit " bytes);".toList cs
    match skipWs cs with
    | [] => some ()
    | _ => none) |>.isSome

/-- Search for a `\]` closing the `\[.*\]` prefix such that `tail` accepts
the remainder; `.*` matches any characters, so every `\]` position is a
candidate. -/
def brSearch (tail : List Char → Bool) : List Char → Bool
  | [] => false
  | c :: cs => (c = ']' && tail cs) || brSearch tail cs

/-- `re_audio_in.fullmatch(line)`, as a Boolean. -/
def re_audio_in_fullmatch (line : String) : Bool :=
  match line.toList with
  | '[' :: cs => brSearch audioInTail cs
  | cs => audioInTail cs

/-- `re_audio_out.fullmatch(line)`, as a Boolean. -/
def re_audio_out_fullmatch (line : String) : Bool :=
  match line.toList with
  | '[' :: cs => brSearch audioOutTail cs
  | cs => audioOutTail cs

/-! ### `get_frames_to_keep` -/

/-- `to_keep[-1][1] = pts_time`: set the `end` of the last interval.
(The Python line would raise on an empty list; the scan only reaches it
with a non-empty list, and on `[]` this model is the identity.)
Kept polymorphic so the position-instrumented scan below can reuse it. -/
def setLastEnd {α β : Type} : List (α × Option β) → β → List (α × Option β)
  | [], _ => []
  | [(s, _)], e => [(s, some e)]
  | p :: q :: rest, e => p :: setLastEnd (q :: rest) e

/-- The loop state of `get_frames_to_keep`: the accumulated `to_keep`
list, the `dropping` flag, and the two audio flags. -/
structure ScanState where
  to_keep : List (String × Option String)
  dropping : Bool
  has_audio_in : Bool
  has_audio_out : Bool

/-- The body of the `for line in mpdecimate` loop. -/
def gftkStep (st : ScanState) (line : String) : ScanState :=
  match re_decimate_find line with
  | none =>
    { st with
      has_audio_in := st.has_audio_in || re_audio_in_fullmatch line
      has_audio_out := st.has_audio_out || re_audio_out_fullmatch line }
  | some (tag, pts_time) =>
    let keep := tag == "keep"
    if keep && st.dropping then
      { st with to_keep := st.to_keep ++ [(pts_time, none)], dropping := false }
    else if !keep && !st.dropping then
      { st with to_keep := setLastEnd st.to_keep pts_time, dropping := true }
    else st

/-- `get_frames_to_keep`, over the lines of the decimate log: the
`(keep_start, keep_end)` intervals and `bool(has_audio_in and
has_audio_out)`. -/
def get_frames_to_keep (lines : List String) : List (String × Option String) × Bool :=
  let f := lines.foldl gftkStep ⟨[], true, false, false⟩
  (f.to_keep, f.has_audio_in && f.has_audio_out)

/-! ### Paths (`posixpath`) -/

/-- Index of the last occurrence of `c` in `cs`, or `none`
(`str.rfind`, restricted to the success case). -/
def rfindIdx (c : Char) : List Char → Option Nat
  | [] => none
  | d :: cs =>
    match rfindIdx c cs with
    | some i => some (i + 1)
    | none => if d = c then some 0 else none

/-- `posixpath.basename`: everything after the last `/`. -/
def basename (p : String) : String :=
  match rfindIdx '/' p.toList with
  | some i => String.mk (p.toList.drop (i + 1))
  | none => p

/-- `posixpath.splitext`: split off the extension at the last `.`, but
only if that dot lies after the last `/` and the part of the final
component before it is not all dots. -/
def splitext (p : String) : String × String :=
  let cs := p.toList
  let sepIdx : Int := match rfindIdx '/' cs with | some i => (i : Int) | none => -1
  match rfindIdx '.' cs with
  | none => (p, "")
  | some dotIdx =>
    if (dotIdx : Int) > sepIdx then
      let base := cs.drop (sepIdx + 1).toNat |>.take (dotIdx - (sepIdx + 1).toNat)
      if base.any (fun c => c ≠ '.') then
        (String.mk (cs.take dotIdx), String.mk (cs.drop dotIdx))
      else (p, "")
    else (p, "")

/-- `os.path.join(dir, name)` for a directory with no trailing slash and
a relative `name`, the only case the script uses. -/
def pathJoin (dir name : String) : String := dir ++ "/" ++ name

/-! ### Configuration and command construction -/

/-- The `--vaapi-decimate` option: absent, bare (`const=True`), or with a
device string. -/
inductive VaapiDecimate
  | absent
  | bare
  | device (s : String)

/-- Python truthiness of an optional string (`None` and `""` are falsy). -/
def strTruthy : Option String → Bool
  | none => false
  | some s => s ≠ ""

/-- The command-line options and the OS-provided values of one run. -/
structure Config where
  keep : Bool
  skip : Option Int
  vaapi : Option String
  vaapi_decimate : VaapiDecimate
  videotoolbox : Bool
  videotoolbox_decimate : Bool
  debug : Bool
  output_to_cwd : Bool
  vfparams : String
  filepath : String
  /-- `os.path.abspath(cargs.filepath)`, an OS lookup taken as input. -/
  abspath : String
  /-- the directory created by `mkdtemp(prefix="mpdecimate_trim.")`. -/
  tempdir : String

def _vaapi_args : List String := ["-hwaccel", "vaapi", "-hwaccel_device"]

/-- `hwargs_decimate()`; `none` models the `raise Exception(…)` branch
(`--vaapi-decimate` without argument while `--vaapi` is unset). -/
def hwargs_decimate (c : Config) : Option (List String) :=
  if c.videotoolbox_decimate then some ["-hwaccel", "videotoolbox"]
  else
    match c.vaapi_decimate with
    | .absent => some []
    | .device s => if s = "" then some [] else some (_vaapi_args ++ [s])
    | .bare =>
      match c.vaapi with
      | some v => if v = "" then none else some (_vaapi_args ++ [v])
      | none => none

/-- `hwargs_transcode()`. -/
def hwargs_transcode (c : Config) : List String :=
  match c.vaapi with
  | some v =>
    if v = "" then []
    else _vaapi_args ++ [v, "-hwaccel_output_format", "vaapi"]
  | none => []

/-- `get_enc_args()`. -/
def get_enc_args (c : Config) : List String :=
  if c.videotoolbox then ["hevc_videotoolbox", "-q:v", "65"]
  else if strTruthy c.vaapi then ["hevc_vaapi", "-qp", "24"]
  else ["libx265", "-preset", "fast", "-crf", "30"]

/-! ### `write_filter`: the playlist file -/

/-- A single-quote character, written by the `file '…'` playlist lines. -/
def squote : String := String.mk [Char.ofNat 39]

/-- `path.join(tempdir, "mpdecimate_filter")`. -/
def filter_fn (c : Config) : String := pathJoin c.tempdir "mpdecimate_filter"

/-- The text written by one iteration of the `write_filter` loop for the
interval `(s, e)`: a separating blank line, the `file` line with the
absolute input path, the `inpoint` line, and the `outpoint` line when the
end is present. -/
def intervalChunk (a : String) (se : String × Option String) : String :=
  "\nfile " ++ squote ++ a ++ squote ++ "\n" ++ "inpoint " ++ se.1 ++ "\n" ++
    (match se.2 with
     | some e => "outpoint " ++ e ++ "\n"
     | none => "")

/-- The full content of the playlist file: the header write followed by
the loop's writes, in order. -/
def write_filter_content (a : String) (l : List (String × Option String)) : String :=
  l.foldl (fun acc se => acc ++ intervalChunk a se) "ffconcat version 1.0\n"

/-! ### The pipeline as a trace of external effects

Each run of the script is modelled as a function of its configuration,
the decimate log produced by the first ffmpeg call, and the two ffmpeg
return codes, yielding the sequence of externally visible effects
(subprocess invocations, file writes, removals) together with the
process exit status (`0` when the script falls off the end). -/

/-- An externally visible effect of the script. -/
inductive Event
  | proc (phase : String) (args : List String)
  | writeFile (p : String) (content : String)
  | removeFile (p : String)
  | removeTree (p : String)
deriving DecidableEq

/-- The argument vector of the decimate ffmpeg call, given the result of
`hwargs_decimate()`. -/
def decimate_args (c : Config) (hw : List String) : List String :=
  ["ffmpeg"] ++ hw ++
    ["-i", c.filepath, "-vf", c.vfparams, "-loglevel", "debug", "-f", "null", "-"]

/-- `f"{fout}.trimmed{ext}"`, the transcode output path. -/
def transcode_out (c : Config) : String :=
  let (f, e) := splitext c.filepath
  (if c.output_to_cwd then basename f else f) ++ ".trimmed" ++ e

/-- The argument vector of the transcode ffmpeg call. -/
def transcode_args (c : Config) : List String :=
  ["ffmpeg"] ++ (if c.debug then ["-loglevel", "debug"] else []) ++
    hwargs_transcode c ++
    ["-safe", "0", "-segment_time_metadata", "1",
     "-i", filter_fn c,
     "-af", "aselect=concatdec_select",
     "-c:v"] ++ get_enc_args c ++ [transcode_out c]

/-- The `if cargs.skip and len(frames_to_keep) < cargs.skip` test
(`0` is falsy in Python). -/
def skipAbort (c : Config) (frames : List (String × Option String)) : Bool :=
  match c.skip with
  | some n => n ≠ 0 && (frames.length : Int) < n
  | none => false

/-- The whole script.  `rc1`/`rc2` are the return codes of the decimate
and transcode ffmpeg invocations, `logLines` the lines of the captured
decimate stderr log.  Returns the effect trace and the exit status.
The `none` branch of `hwargs_decimate` is the uncaught `Exception`,
which terminates a Python process with status 1 before any subprocess
runs. -/
def run_program (c : Config) (rc1 : Int) (logLines : List String) (rc2 : Int) :
    List Event × Nat :=
  match hwargs_decimate c with
  | none => ([], 1)
  | some hw =>
    let ev1 := Event.proc "decimate" (decimate_args c hw)
    if rc1 ≠ 0 then ([ev1], 3)
    else
      let frames_to_keep := (get_frames_to_keep logLines).1
      if skipAbort c frames_to_keep then ([ev1], 2)
      else
        let ev2 := Event.writeFile (filter_fn c) (write_filter_content c.abspath frames_to_keep)
        let ev3 := Event.proc "transcode" (transcode_args c)
        if rc2 ≠ 0 then ([ev1, ev2, ev3], 3)
        else if c.debug then ([ev1, ev2, ev3], 0)
        else
          ([ev1, ev2, ev3] ++
            (if !c.keep then [Event.removeFile c.filepath] else []) ++
            [Event.removeTree c.tempdir], 0)

/-- Number of subprocess invocations in a trace. -/
def countProcs (tr : List Event) : Nat :=
  tr.countP fun e => match e with | .proc _ _ => true | _ => false

/-! ### Lemmas about the scan -/

/-- The interval/dropping part of the loop body, as a function of the
regex captures alone. -/
def pairStep (p : List (String × Option String) × Bool) (tp : String × String) :
    List (String × Option String) × Bool :=
  if tp.1 == "keep" && p.2 then (p.1 ++ [(tp.2, none)], false)
  else if !(tp.1 == "keep") && !p.2 then (setLastEnd p.1 tp.2, true)
  else p

theorem gftkStep_to_keep_dropping (st : ScanState) (line : String) :
    ((gftkStep st line).to_keep, (gftkStep st line).dropping) =
      match re_decimate_find line with
      | none => (st.to_keep, st.dropping)
      | some tp => pairStep (st.to_keep, st.dropping) tp := by
  cases h : re_decimate_find line with
  | none => simp [gftkStep, h]
  | some tp =>
    by_cases hk : tp.1 == "keep" <;> by_cases hd : st.dropping <;>
      simp [gftkStep, pairStep, h, hk, hd]

/-- The interval list and dropping flag after the scan depend only on the
sequence of `re_decimate` captures of the lines. -/
theorem foldl_gftkStep_pair (lines : List String) : ∀ st : ScanState,
    ((lines.foldl gftkStep st).to_keep, (lines.foldl gftkStep st).dropping) =
      (lines.filterMap re_decimate_find).foldl pairStep (st.to_keep, st.dropping) := by
  induction lines with
  | nil => intro st; rfl
  | cons l ls ih =>
    intro st
    rw [List.foldl_cons, ih, List.filterMap_cons]
    cases h : re_decimate_find l with
    | none =>
      have := gftkStep_to_keep_dropping st l
      rw [h] at this
      rw [show ((gftkStep st l).to_keep, (gftkStep st l).dropping) =
        (st.to_keep, st.dropping) from this]
    | some tp =>
      have := gftkStep_to_keep_dropping st l
      rw [h] at this
      rw [List.foldl_cons,
        show ((gftkStep st l).to_keep, (gftkStep st l).dropping) =
          pairStep (st.to_keep, st.dropping) tp from this]

/-- The `has_audio_in` flag after the scan: its initial value, or some
line with no decimate match fully matches `re_audio_in`. -/
theorem foldl_gftkStep_audio_in (lines : List String) : ∀ st : ScanState,
    (lines.foldl gftkStep st).has_audio_in =
      (st.has_audio_in ||
        lines.any fun l => (re_decimate_find l).isNone && re_audio_in_fullmatch l) := by
  induction lines with
  | nil => intro st; simp
  | cons l ls ih =>
    intro st
    rw [List.foldl_cons, ih, List.any_cons]
    cases h : re_decimate_find l with
    | none => simp [gftkStep, h, Bool.or_assoc]
    | some tp =>
      have : (gftkStep st l).has_audio_in = st.has_audio_in := by
        by_cases hk : tp.1 == "keep" <;> by_cases hd : st.dropping <;>
          simp [gftkStep, h, hk, hd]
      rw [this]
      simp [h]

/-- The `has_audio_out` flag after the scan, likewise. -/
theorem foldl_gftkStep_audio_out (lines : List String) : ∀ st : ScanState,
    (lines.foldl gftkStep st).has_audio_out =
      (st.has_audio_out ||
        lines.any fun l => (re_decimate_find l).isNone && re_audio_out_fullmatch l) := by
  induction lines with
  | nil => intro st; simp
  | cons l ls ih =>
    intro st
    rw [List.foldl_cons, ih, List.any_cons]
    cases h : re_decimate_find l with
    | none => simp [gftkStep, h, Bool.or_assoc]
    | some tp =>
      have : (gftkStep st l).has_audio_out = st.has_audio_out := by
        by_cases hk : tp.1 == "keep" <;> by_cases hd : st.dropping <;>
          simp [gftkStep, h, hk, hd]
      rw [this]
      simp [h]

/-! ### The claims -/

/-- The scan described by claim C1, stated in its words: lines are
processed in order from an initial dropping state; a keep-tagged
decimate line while dropping appends `(pts_time, None)` and leaves
dropping state; a drop-tagged decimate line while not dropping sets the
end of the most recently appended interval and re-enters dropping state;
every other line leaves the interval list unchanged. -/
def claimStep (p : List (String × Option String) × Bool) (line : String) :
    List (String × Option String) × Bool :=
  match re_decimate_find line with
  | none => p
  | some (tag, pts) =>
    if tag == "keep" then
      if p.2 then (p.1 ++ [(pts, none)], false) else p
    else
      if p.2 then p else (setLastEnd p.1 pts, true)

/-- The interval list obtained by the claimed scan. -/
def claim_intervals (lines : List String) : List (String × Option String) :=
  (lines.foldl claimStep ([], true)).1

theorem foldl_claimStep_pair (lines : List String) :
    ∀ p, lines.foldl claimStep p = (lines.filterMap re_decimate_find).foldl pairStep p := by
  induction lines with
  | nil => intro p; rfl
  | cons l ls ih =>
    intro p
    rw [List.foldl_cons, List.filterMap_cons]
    cases h : re_decimate_find l with
    | none =>
      rw [ih, show claimStep p l = p by simp [claimStep, h]]
    | some tp =>
      rw [List.foldl_cons, ih,
        show claimStep p l = pairStep p tp by
          obtain ⟨tag, pts⟩ := tp
          by_cases hk : tag == "keep" <;> by_cases hd : p.2 <;>
            simp [claimStep, pairStep, h, hk, hd]]

/-- The interval component of `get_frames_to_keep`, as a fold of
`pairStep` over the capture sequence. -/
theorem gftk_fst_eq (lines : List String) :
    (get_frames_to_keep lines).1 =
      ((lines.filterMap re_decimate_find).foldl pairStep ([], true)).1 := by
  have h1 := congrArg Prod.fst (foldl_gftkStep_pair lines ⟨[], true, false, false⟩)
  exact h1

/-- C1: `get_frames_to_keep` returns exactly the interval list described
by the claimed scan of the log's lines: starting in dropping state, a
keep-tagged decimate line while dropping opens a new interval at its
`pts_time`, a drop-tagged decimate line while keeping closes the most
recently opened interval at its `pts_time`, and all other lines leave
the interval list unchanged. -/
theorem c1_intervals_eq_claimed_scan (lines : List String) :
    (get_frames_to_keep lines).1 = claim_intervals lines := by
  have h2 := foldl_claimStep_pair lines ([], true)
  rw [gftk_fst_eq]
  show _ = (lines.foldl claimStep ([], true)).1
  rw [h2]

/-- C5: the audio-presence Boolean returned by `get_frames_to_keep` is
`true` iff the log has at least one line fully matching `re_audio_in`
and at least one fully matching `re_audio_out`, both counted only among
lines with no `re_decimate` match. -/
theorem c5_audio_iff (lines : List String) :
    (get_frames_to_keep lines).2 = true ↔
      ((∃ l ∈ lines, re_decimate_find l = none ∧ re_audio_in_fullmatch l = true) ∧
       (∃ l ∈ lines, re_decimate_find l = none ∧ re_audio_out_fullmatch l = true)) := by
  unfold get_frames_to_keep
  rw [Bool.and_eq_true, foldl_gftkStep_audio_in, foldl_gftkStep_audio_out]
  simp [List.any_eq_true, Option.isNone_iff_eq_none, Bool.and_eq_true, and_assoc]

/-- C9: the audio-presence detection has no effect on the run: two
decimate logs with the same sequence of decimate-regex captures produce
identical effect traces and exit statuses, whatever their other (audio
or otherwise) lines. -/
theorem c9_audio_noninterference (c : Config) (rc1 rc2 : Int) (log1 log2 : List String)
    (h : log1.filterMap re_decimate_find = log2.filterMap re_decimate_find) :
    run_program c rc1 log1 rc2 = run_program c rc1 log2 rc2 := by
  have hint : (get_frames_to_keep log1).1 = (get_frames_to_keep log2).1 := by
    rw [gftk_fst_eq, gftk_fst_eq, h]
  unfold run_program
  rw [hint]

/-! ### C2: the playlist content -/

theorem string_join_cons (a : String) (l : List String) :
    String.join (a :: l) = a ++ String.join l := by
  apply String.ext
  rw [String.join_eq, String.join_eq, String.data_append]
  simp

theorem foldl_append_join {α : Type} (chunk : α → String) (l : List α) :
    ∀ init : String,
      l.foldl (fun acc se => acc ++ chunk se) init = init ++ String.join (l.map chunk) := by
  induction l with
  | nil => intro init; simp [String.join]
  | cons x xs ih =>
    intro init
    rw [List.foldl_cons, ih, List.map_cons, string_join_cons, String.append_assoc]

/-- The playlist content as claim C2 words it: the header line followed,
for each interval, directly by the `file`, `inpoint` and (when the end
is present) `outpoint` lines, and nothing else. -/
def write_filter_content_claimed (a : String) (l : List (String × Option String)) : String :=
  "ffconcat version 1.0\n" ++
    String.join (l.map fun se =>
      "file " ++ squote ++ a ++ squote ++ "\n" ++ "inpoint " ++ se.1 ++ "\n" ++
        (match se.2 with
         | some e => "outpoint " ++ e ++ "\n"
         | none => ""))

/-- C2 as stated is false: for one interval the written playlist has a
blank separator line between the header and the `file` line, so its
content is not exactly the claimed sequence of lines. -/
theorem c2_counterexample :
    write_filter_content "/v/in.mp4" [("1", some "2")] ≠
      write_filter_content_claimed "/v/in.mp4" [("1", some "2")] := by decide

/-- C2 amended: the playlist content is exactly the header line
`ffconcat version 1.0` followed, for each interval `(s, e)` in list
order, by a blank separator line, a `file` line holding the absolute
input path in single quotes, an `inpoint s` line, and an `outpoint e`
line when the end is present — and nothing else. -/
theorem c2_playlist_content (a : String) (l : List (String × Option String)) :
    write_filter_content a l =
      "ffconcat version 1.0\n" ++
        String.join (l.map fun se =>
          "\n" ++ "file " ++ squote ++ a ++ squote ++ "\n" ++
            "inpoint " ++ se.1 ++ "\n" ++
            (match se.2 with
             | some e => "outpoint " ++ e ++ "\n"
             | none => "")) := by
  unfold write_filter_content
  rw [foldl_append_join]
  congr 2

/-! ### Exit codes, call counts, ordering, cleanup -/

/-- A minimal configuration (no optional flags), used to instantiate the
universally quantified theorems on concrete runs. -/
def cfg0 : Config where
  keep := false
  skip := none
  vaapi := none
  vaapi_decimate := .absent
  videotoolbox := false
  videotoolbox_decimate := false
  debug := false
  output_to_cwd := false
  vfparams := "mpdecimate=lo=64*4:hi=64*10"
  filepath := "in.mp4"
  abspath := "/work/in.mp4"
  tempdir := "/tmp/mpdecimate_trim.x1"

/-- C3: a non-zero return code from the external tool aborts the run
with exit status 3 — the same fixed status in the decimate phase and in
the transcode phase — and nothing later in the pipeline happens: on a
decimate failure the trace ends at the decimate call, on a transcode
failure it ends at the transcode call (in particular no file is removed
afterwards). -/
theorem c3_tool_failure_exit3 (c : Config) (rc1 rc2 : Int) (log : List String)
    (hw : List String) (hhw : hwargs_decimate c = some hw) :
    (rc1 ≠ 0 →
      run_program c rc1 log rc2 =
        ([Event.proc "decimate" (decimate_args c hw)], 3)) ∧
    (rc1 = 0 → skipAbort c (get_frames_to_keep log).1 = false → rc2 ≠ 0 →
      run_program c rc1 log rc2 =
        ([Event.proc "decimate" (decimate_args c hw),
          Event.writeFile (filter_fn c)
            (write_filter_content c.abspath (get_frames_to_keep log).1),
          Event.proc "transcode" (transcode_args c)], 3)) := by
  constructor
  · intro h1
    unfold run_program
    rw [hhw]
    simp [h1]
  · intro h1 hsk h2
    subst h1
    unfold run_program
    rw [hhw]
    simp [hsk, h2]

/-- C4: when `--skip N` is given and the parse finds fewer than `N`
intervals, the run aborts with exit status 2 (distinct from the
tool-failure status 3): the trace ends at the decimate call, so neither
the playlist write nor the transcode call happens. -/
theorem c4_skip_exit2 (c : Config) (rc2 : Int) (log : List String) (n : Int)
    (hw : List String) (hhw : hwargs_decimate c = some hw)
    (hs : c.skip = some n)
    (hlen : ((get_frames_to_keep log).1.length : Int) < n) :
    run_program c 0 log rc2 = ([Event.proc "decimate" (decimate_args c hw)], 2) := by
  have hn : n ≠ 0 := by omega
  unfold run_program
  rw [hhw]
  simp [skipAbort, hs, hlen, hn]

/-- A run that exits with status 0 passed every guard, and its trace has
the closed form below. -/
theorem run_program_success_shape (c : Config) (rc1 rc2 : Int) (log : List String)
    (h : (run_program c rc1 log rc2).2 = 0) :
    ∃ hw, hwargs_decimate c = some hw ∧ rc1 = 0 ∧
      skipAbort c (get_frames_to_keep log).1 = false ∧ rc2 = 0 ∧
      run_program c rc1 log rc2 =
        (Event.proc "decimate" (decimate_args c hw) ::
          Event.writeFile (filter_fn c)
            (write_filter_content c.abspath (get_frames_to_keep log).1) ::
          Event.proc "transcode" (transcode_args c) ::
          (if c.debug then []
           else (if !c.keep then [Event.removeFile c.filepath] else []) ++
             [Event.removeTree c.tempdir]), 0) := by
  cases hhw : hwargs_decimate c with
  | none =>
    exfalso
    unfold run_program at h
    rw [hhw] at h
    simp at h
  | some hw =>
    refine ⟨hw, rfl, ?_⟩
    unfold run_program at h ⊢
    rw [hhw] at h ⊢
    by_cases h1 : rc1 ≠ 0
    · simp [h1] at h
    · by_cases hsk : skipAbort c (get_frames_to_keep log).1
      · simp [h1, hsk] at h
      · by_cases h2 : rc2 ≠ 0
        · simp [h1, hsk, h2] at h
        · push_neg at h1 h2
          refine ⟨h1, by simpa using hsk, h2, ?_⟩
          by_cases hd : c.debug
          · simp [h1, hsk, h2, hd]
          · by_cases hk : c.keep <;> simp [h1, hsk, h2, hd, hk]

/-- C6 as stated (three subprocess calls per successful run) is false:
here is a successful run (exit status 0) whose trace contains exactly
two subprocess invocations. -/
theorem c6_counterexample :
    (run_program cfg0 0 [] 0).2 = 0 ∧
      ¬ countProcs (run_program cfg0 0 [] 0).1 = 3 := by decide

/-- C6 amended: every successful run of the program performs exactly two
subprocess calls to the external video-processing tool (the decimate
call and the transcode call). -/
theorem c6_two_subprocess_calls (c : Config) (rc1 rc2 : Int) (log : List String)
    (h : (run_program c rc1 log rc2).2 = 0) :
    countProcs (run_program c rc1 log rc2).1 = 2 := by
  obtain ⟨hw, -, -, -, -, heq⟩ := run_program_success_shape c rc1 rc2 log h
  rw [heq]
  by_cases hd : c.debug
  · simp [hd, countProcs]
  · by_cases hk : c.keep <;>
      simp [hd, hk, countProcs, List.countP_cons, List.countP_append]

/-- C7: in every successful run the phases occur in the fixed linear
order — the decimate subprocess call comes first, then the playlist
write whose content is computed from the parsed decimate log, then the
transcode subprocess call, whose argument vector names the playlist
file after its `-i` input flag. -/
theorem c7_pipeline_order (c : Config) (rc1 rc2 : Int) (log : List String)
    (h : (run_program c rc1 log rc2).2 = 0) :
    ∃ hw tail,
      hwargs_decimate c = some hw ∧
      (run_program c rc1 log rc2).1 =
        Event.proc "decimate" (decimate_args c hw) ::
          Event.writeFile (filter_fn c)
            (write_filter_content c.abspath (get_frames_to_keep log).1) ::
          Event.proc "transcode" (transcode_args c) :: tail ∧
      ∃ pre post, transcode_args c = pre ++ ["-i", filter_fn c] ++ post := by
  have hinfix : ∃ pre post, transcode_args c = pre ++ ["-i", filter_fn c] ++ post := by
    refine ⟨["ffmpeg"] ++ (if c.debug then ["-loglevel", "debug"] else []) ++
      hwargs_transcode c ++ ["-safe", "0", "-segment_time_metadata", "1"],
      ["-af", "aselect=concatdec_select", "-c:v"] ++ get_enc_args c ++ [transcode_out c], ?_⟩
    simp [transcode_args]
  obtain ⟨hw, hhw, -, -, -, heq⟩ := run_program_success_shape c rc1 rc2 log h
  exact ⟨hw, _, hhw, by rw [heq], hinfix⟩

/-- C10: after a successful transcode, with `--debug` the program exits
with status 0 and removes nothing; without `--debug` the temporary
directory is removed and the original input file is deleted exactly
when `--keep` is absent. -/
theorem c10_cleanup (c : Config) (log : List String)
    (hw : List String) (hhw : hwargs_decimate c = some hw)
    (hsk : skipAbort c (get_frames_to_keep log).1 = false) :
    ((run_program c 0 log 0).2 = 0) ∧
    (c.debug = true →
      (∀ p, Event.removeFile p ∉ (run_program c 0 log 0).1) ∧
      (∀ p, Event.removeTree p ∉ (run_program c 0 log 0).1)) ∧
    (c.debug = false →
      Event.removeTree c.tempdir ∈ (run_program c 0 log 0).1 ∧
      (c.keep = true → ∀ p, Event.removeFile p ∉ (run_program c 0 log 0).1) ∧
      (c.keep = false → Event.removeFile c.filepath ∈ (run_program c 0 log 0).1)) := by
  unfold run_program
  rw [hhw]
  simp only [hsk, if_false, ne_eq, not_true_eq_false, if_true]
  by_cases hd : c.debug
  · simp [hd]
  · by_cases hk : c.keep <;> simp [hd, hk]

/-! ### C8: structural invariants of the interval list

To speak about positions in the log, the same scan is instrumented with
the index of the line each `pts_time` was taken from; projecting the
indices away recovers `get_frames_to_keep`. -/

/-- Forget the line indices of an instrumented interval. -/
def projIv (iv : (String × Nat) × Option (String × Nat)) : String × Option String :=
  (iv.1.1, iv.2.map Prod.fst)

/-- The loop body on `(index, line)` pairs, recording with each
`pts_time` the index of the line it came from. -/
def idxStep (p : List ((String × Nat) × Option (String × Nat)) × Bool)
    (il : Nat × String) : List ((String × Nat) × Option (String × Nat)) × Bool :=
  match re_decimate_find il.2 with
  | none => p
  | some (tag, pts) =>
    if tag == "keep" && p.2 then (p.1 ++ [((pts, il.1), none)], false)
    else if !(tag == "keep") && !p.2 then (setLastEnd p.1 (pts, il.1), true)
    else p

/-- The instrumented scan of a whole log. -/
def idxScan (lines : List String) :
    List ((String × Nat) × Option (String × Nat)) × Bool :=
  lines.enum.foldl idxStep ([], true)

theorem setLastEnd_append {α β : Type} (l0 : List (α × Option β)) (s : α)
    (o : Option β) (e : β) :
    setLastEnd (l0 ++ [(s, o)]) e = l0 ++ [(s, some e)] := by
  induction l0 with
  | nil => rfl
  | cons x xs ih =>
    cases xs with
    | nil => rfl
    | cons y ys =>
      show x :: setLastEnd ((y :: ys) ++ [(s, o)]) e = x :: ((y :: ys) ++ [(s, some e)])
      rw [ih]

theorem setLastEnd_map_proj (l : List ((String × Nat) × Option (String × Nat)))
    (e : String × Nat) :
    (setLastEnd l e).map projIv = setLastEnd (l.map projIv) e.1 := by
  induction l with
  | nil => rfl
  | cons x xs ih =>
    cases xs with
    | nil => obtain ⟨⟨s, i⟩, o⟩ := x; rfl
    | cons y ys =>
      show projIv x :: (setLastEnd (y :: ys) e).map projIv =
        setLastEnd (projIv x :: (y :: ys).map projIv) e.1
      rw [ih]
      rfl

/-- Projecting the instrumented scan away from indices gives the plain
`pairStep` fold, both in its interval list and its dropping flag. -/
theorem foldl_idxStep_proj (lines : List String) :
    ∀ (n : Nat) (p : List ((String × Nat) × Option (String × Nat)) × Bool),
      ((((List.enumFrom n lines).foldl idxStep p).1.map projIv),
       ((List.enumFrom n lines).foldl idxStep p).2) =
        (lines.filterMap re_decimate_find).foldl pairStep (p.1.map projIv, p.2) := by
  induction lines with
  | nil => intro n p; rfl
  | cons l ls ih =>
    intro n p
    rw [show List.enumFrom n (l :: ls) = (n, l) :: List.enumFrom (n + 1) ls from rfl,
      List.foldl_cons, List.filterMap_cons, ih]
    cases h : re_decimate_find l with
    | none =>
      rw [show idxStep p (n, l) = p by simp [idxStep, h]]
    | some tp =>
      rw [List.foldl_cons]
      congr 1
      obtain ⟨tag, pts⟩ := tp
      by_cases hk : tag == "keep" <;> by_cases hd : p.2 <;>
        simp [idxStep, pairStep, projIv, h, hk, hd, setLastEnd_map_proj]

/-- The interval lists of the instrumented and the plain scan agree. -/
theorem idxScan_proj (lines : List String) :
    (idxScan lines).1.map projIv = (get_frames_to_keep lines).1 := by
  have h := congrArg Prod.fst (foldl_idxStep_proj lines 0 ([], true))
  rw [gftk_fst_eq]
  exact h

/-- The final flag of the instrumented scan is the scan's final
`dropping` state. -/
theorem idxScan_flag (lines : List String) :
    (idxScan lines).2 = (lines.foldl gftkStep ⟨[], true, false, false⟩).dropping := by
  have h1 := congrArg Prod.snd (foldl_idxStep_proj lines 0 ([], true))
  have h2 := congrArg Prod.snd (foldl_gftkStep_pair lines ⟨[], true, false, false⟩)
  exact h1.trans h2.symm

/-- The scan invariant: indices are below `n`, each closed interval ends
at a strictly later line than it starts, and the interval list is all
closed when dropping, or all closed but an open last interval when
keeping. -/
def IdxInv (n : Nat) (p : List ((String × Nat) × Option (String × Nat)) × Bool) : Prop :=
  (∀ iv ∈ p.1, iv.1.2 < n ∧ ∀ e, iv.2 = some e → iv.1.2 < e.2 ∧ e.2 < n) ∧
  (p.2 = true → ∀ iv ∈ p.1, iv.2 ≠ none) ∧
  (p.2 = false →
    ∃ l0 s, p.1 = l0 ++ [(s, (none : Option (String × Nat)))] ∧ ∀ iv ∈ l0, iv.2 ≠ none)

theorem IdxInv_mono {n m : Nat} (hnm : n ≤ m)
    {p : List ((String × Nat) × Option (String × Nat)) × Bool}
    (h : IdxInv n p) : IdxInv m p := by
  obtain ⟨hb, hc, ho⟩ := h
  refine ⟨fun iv hiv => ?_, hc, ho⟩
  obtain ⟨h1, h2⟩ := hb iv hiv
  exact ⟨lt_of_lt_of_le h1 hnm, fun e he =>
    ⟨(h2 e he).1, lt_of_lt_of_le (h2 e he).2 hnm⟩⟩

theorem idxStep_inv (n : Nat) (p : List ((String × Nat) × Option (String × Nat)) × Bool)
    (l : String) (h : IdxInv n p) : IdxInv (n + 1) (idxStep p (n, l)) := by
  obtain ⟨hb, hc, ho⟩ := h
  cases hf : re_decimate_find l with
  | none =>
    rw [show idxStep p (n, l) = p by simp [idxStep, hf]]
    exact IdxInv_mono (Nat.le_succ n) ⟨hb, hc, ho⟩
  | some tp =>
    obtain ⟨tag, pts⟩ := tp
    by_cases hk : tag == "keep" <;> by_cases hd : p.2
    · -- keep while dropping: open a new interval at index n
      rw [show idxStep p (n, l) = (p.1 ++ [((pts, n), none)], false) by
        simp [idxStep, hf, hk, hd]]
      refine ⟨?_, by simp, ?_⟩
      · intro iv hiv
        rcases List.mem_append.1 hiv with hiv | hiv
        · obtain ⟨h1, h2⟩ := hb iv hiv
          exact ⟨Nat.lt_succ_of_lt h1, fun e he =>
            ⟨(h2 e he).1, Nat.lt_succ_of_lt (h2 e he).2⟩⟩
        · rw [List.mem_singleton.1 hiv]
          exact ⟨Nat.lt_succ_self n, by simp⟩
      · intro _
        exact ⟨p.1, (pts, n), rfl, hc hd⟩
    · -- keep while keeping: unchanged
      rw [show idxStep p (n, l) = p by simp [idxStep, hf, hk, hd]]
      exact IdxInv_mono (Nat.le_succ n) ⟨hb, hc, ho⟩
    · -- drop while dropping: unchanged
      rw [show idxStep p (n, l) = p by simp [idxStep, hf, hk, hd]]
      exact IdxInv_mono (Nat.le_succ n) ⟨hb, hc, ho⟩
    · -- drop while keeping: close the open last interval at index n
      obtain ⟨l0, s, heq, hl0⟩ := ho (by simpa using hd)
      rw [show idxStep p (n, l) = (setLastEnd p.1 (pts, n), true) by
        simp [idxStep, hf, hk, hd]]
      rw [heq, setLastEnd_append]
      have hsmem : (s, (none : Option (String × Nat))) ∈ p.1 := by
        rw [heq]; exact List.mem_append.2 (Or.inr (List.mem_singleton.2 rfl))
      have hsn : s.2 < n := (hb _ hsmem).1
      refine ⟨?_, ?_, by simp⟩
      · intro iv hiv
        rcases List.mem_append.1 hiv with hiv | hiv
        · have hmem : iv ∈ p.1 := by
            rw [heq]; exact List.mem_append.2 (Or.inl hiv)
          obtain ⟨h1, h2⟩ := hb iv hmem
          exact ⟨Nat.lt_succ_of_lt h1, fun e he =>
            ⟨(h2 e he).1, Nat.lt_succ_of_lt (h2 e he).2⟩⟩
        · rw [List.mem_singleton.1 hiv]
          refine ⟨Nat.lt_succ_of_lt hsn, fun e he => ?_⟩
          rw [Option.some_inj.1 he.symm]  -- e = (pts, n)
          exact ⟨hsn, Nat.lt_succ_self n⟩
      · intro _ iv hiv
        rcases List.mem_append.1 hiv with hiv | hiv
        · exact hl0 iv hiv
        · rw [List.mem_singleton.1 hiv]; simp

theorem foldl_idxStep_invariant (lines : List String) :
    ∀ (n : Nat) (p : List ((String × Nat) × Option (String × Nat)) × Bool),
      IdxInv n p →
      IdxInv (n + lines.length) ((List.enumFrom n lines).foldl idxStep p) := by
  induction lines with
  | nil => intro n p h; simpa using h
  | cons l ls ih =>
    intro n p h
    show IdxInv (n + (l :: ls).length) (((n, l) :: List.enumFrom (n + 1) ls).foldl idxStep p)
    rw [List.foldl_cons, show n + (l :: ls).length = (n + 1) + ls.length by
      simp [List.length_cons]; omega]
    exact ih (n + 1) _ (idxStep_inv n p l h)

/-- The invariant holds of the full instrumented scan. -/
theorem idxScan_invariant (lines : List String) :
    IdxInv lines.length (idxScan lines) := by
  have h := foldl_idxStep_invariant lines 0 ([], true)
    ⟨by simp, by simp, by simp⟩
  simpa using h

/-- C8: in the interval list of the scan (instrumented with the log
position each `pts_time` came from, and projecting to exactly the list
`get_frames_to_keep` returns), every interval except possibly the last
has a non-`None` end taken from a strictly later log line than its
start; the last interval's end is `None` exactly when the scan's final
state is keeping (non-dropping); and the playlist chunk written for
such an open interval has no `outpoint` line. -/
theorem c8_invariants (lines : List String) :
    ((idxScan lines).1.map projIv = (get_frames_to_keep lines).1) ∧
    ((idxScan lines).2 = (lines.foldl gftkStep ⟨[], true, false, false⟩).dropping) ∧
    (∀ iv ∈ (idxScan lines).1.dropLast, ∃ e, iv.2 = some e ∧ iv.1.2 < e.2) ∧
    (∀ h : (idxScan lines).1 ≠ [],
      (((idxScan lines).1.getLast h).2 = none ↔ (idxScan lines).2 = false)) ∧
    ((idxScan lines).2 = false → (idxScan lines).1 ≠ []) ∧
    (∀ a s, intervalChunk a (s, none) =
      "\nfile " ++ squote ++ a ++ squote ++ "\n" ++ "inpoint " ++ s ++ "\n") := by
  obtain ⟨hb, hc, ho⟩ := idxScan_invariant lines
  refine ⟨idxScan_proj lines, idxScan_flag lines, ?_, ?_, ?_, ?_⟩
  · intro iv hiv
    cases hflag : (idxScan lines).2 with
    | true =>
      have hmem : iv ∈ (idxScan lines).1 := (List.dropLast_sublist _).subset hiv
      have hne := hc hflag iv hmem
      cases he : iv.2 with
      | none => exact absurd he hne
      | some e => exact ⟨e, rfl, ((hb iv hmem).2 e he).1⟩
    | false =>
      obtain ⟨l0, s, heq, hl0⟩ := ho hflag
      have hiv0 : iv ∈ l0 := by
        rw [heq, List.dropLast_concat] at hiv
        exact hiv
      have hmem : iv ∈ (idxScan lines).1 := by
        rw [heq]; exact List.mem_append.2 (Or.inl hiv0)
      have hne := hl0 iv hiv0
      cases he : iv.2 with
      | none => exact absurd he hne
      | some e => exact ⟨e, rfl, ((hb iv hmem).2 e he).1⟩
  · intro h
    cases hflag : (idxScan lines).2 with
    | true =>
      have hne := hc hflag _ (List.getLast_mem h)
      simp [hne, hflag]
    | false =>
      obtain ⟨l0, s, heq, _⟩ := ho hflag
      have : ((idxScan lines).1.getLast h).2 = none := by
        have hl : (idxScan lines).1.getLast h = (s, none) := by
          revert h
          rw [heq]
          intro h
          exact List.getLast_concat _
        rw [hl]
      simp [this, hflag]
  · intro hflag
    obtain ⟨l0, s, heq, _⟩ := ho hflag
    rw [heq]
    intro habs
    simpa using congrArg List.length habs
  · intro a s
    show intervalChunk a (s, none) = _
    simp only [intervalChunk, String.append_empty]

/-! ### Concrete instantiations of the hypotheses -/

/-- `cfg0` with `--skip 1`. -/
def cfgSkip : Config := { cfg0 with skip := some 1 }

/-- Witness for C3: both failure modes at a concrete configuration. -/
theorem c3_witness :
    run_program cfg0 1 [] 0 = ([Event.proc "decimate" (decimate_args cfg0 [])], 3) ∧
    run_program cfg0 0 [] 1 =
      ([Event.proc "decimate" (decimate_args cfg0 []),
        Event.writeFile (filter_fn cfg0) (write_filter_content cfg0.abspath []),
        Event.proc "transcode" (transcode_args cfg0)], 3) := by
  constructor
  · exact (c3_tool_failure_exit3 cfg0 1 0 [] [] rfl).1 (by decide)
  · exact (c3_tool_failure_exit3 cfg0 0 1 [] [] rfl).2 rfl (by decide) (by decide)

/-- Witness for C4: `--skip 1` and an empty log abort with status 2. -/
theorem c4_witness :
    run_program cfgSkip 0 [] 0 = ([Event.proc "decimate" (decimate_args cfgSkip [])], 2) :=
  c4_skip_exit2 cfgSkip 0 [] 1 [] rfl rfl (by decide)

/-- Witness for the amended C6 on a concrete successful run. -/
theorem c6_witness : countProcs (run_program cfg0 0 [] 0).1 = 2 :=
  c6_two_subprocess_calls cfg0 0 0 [] (by decide)

/-- Witness for C7 on a concrete successful run. -/
theorem c7_witness :
    ∃ hw tail,
      hwargs_decimate cfg0 = some hw ∧
      (run_program cfg0 0 [] 0).1 =
        Event.proc "decimate" (decimate_args cfg0 hw) ::
          Event.writeFile (filter_fn cfg0)
            (write_filter_content cfg0.abspath (get_frames_to_keep []).1) ::
          Event.proc "transcode" (transcode_args cfg0) :: tail ∧
      ∃ pre post, transcode_args cfg0 = pre ++ ["-i", filter_fn cfg0] ++ post :=
  c7_pipeline_order cfg0 0 0 [] (by decide)

/-- Witness for C5: a log with one input-audio and one output-audio line
is reported as having audio. -/
theorem c5_witness :
    (get_frames_to_keep
      ["Input stream #0:1 (audio): 9 packets read (99 bytes); 9 frames decoded (99 samples);",
       "Output stream #0:1 (audio): 9 frames encoded (99 samples); 9 packets muxed (99 bytes);"]).2
      = true :=
  (c5_audio_iff _).mpr
    ⟨⟨"Input stream #0:1 (audio): 9 packets read (99 bytes); 9 frames decoded (99 samples);",
      by simp, by decide, by decide⟩,
     ⟨"Output stream #0:1 (audio): 9 frames encoded (99 samples); 9 packets muxed (99 bytes);",
      by simp, by decide, by decide⟩⟩

/-- Witness for C8 on a one-line log whose single decimate line is a
keep: the scan ends keeping, with one (open) interval. -/
theorem c8_witness :
    ((idxScan ["x keep pts:1 pts_time:3 drop_count:0"]).1.map projIv =
      (get_frames_to_keep ["x keep pts:1 pts_time:3 drop_count:0"]).1) ∧
    (idxScan ["x keep pts:1 pts_time:3 drop_count:0"]).1 ≠ [] :=
  ⟨(c8_invariants _).1, (c8_invariants _).2.2.2.2.1 (by decide)⟩

/-- Witness for C9: adding an audio line to an empty log changes
nothing in the run. -/
theorem c9_witness :
    run_program cfg0 0
      ["Input stream #0:1 (audio): 9 packets read (99 bytes); 9 frames decoded (99 samples);"]
      0 = run_program cfg0 0 [] 0 :=
  c9_audio_noninterference cfg0 0 0 _ [] (by decide)

/-- Witness for C10 on a concrete successful non-debug, non-keep run:
the temp directory and the input file are removed. -/
theorem c10_witness :
    Event.removeTree cfg0.tempdir ∈ (run_program cfg0 0 [] 0).1 ∧
      Event.removeFile cfg0.filepath ∈ (run_program cfg0 0 [] 0).1 := by
  have h := c10_cleanup cfg0 [] [] rfl (by decide)
  exact ⟨(h.2.2 rfl).1, (h.2.2 rfl).2.2 rfl⟩

end MpdecimateTrim
